import Mathlib

/-!
Shallow embedding of the MIS-Streamlit pivot/chart pipeline (src/app.py).

Cell values are modelled by `Val` (missing / numeric / text); numbers are
rationals (the pipeline only adds, divides and compares, so `ℚ` models the
arithmetic without floating-point concerns).  A `Table` mirrors a pandas
DataFrame: a header of column names, a parallel list of column dtypes
(`Kind.num` for numeric dtype, `Kind.cat` for object dtype) and row-major
cells.
-/

namespace MIS

/-- A single cell: missing (NaN), numeric, or text. -/
inductive Val : Type
  | null : Val
  | num (q : ℚ) : Val
  | str (s : String) : Val
deriving DecidableEq

/-- Column dtype as pandas tracks it: numeric dtype or object dtype. -/
inductive Kind : Type
  | num : Kind
  | cat : Kind
deriving DecidableEq

/-- An in-memory table: named columns with dtypes, row-major cells. -/
structure Table : Type where
  header : List String
  kinds : List Kind
  rows : List (List Val)
deriving DecidableEq

/-- Index of the first column with the given name (pandas label lookup). -/
def colIdx (h : List String) (c : String) : Option Nat :=
  match h with
  | [] => none
  | a :: as => if a = c then some 0 else (colIdx as c).map (fun i => i + 1)

/-- The cell of row `r` in the column named `c` (missing when absent). -/
def getCell (h : List String) (r : List Val) (c : String) : Val :=
  match colIdx h c with
  | some i => r.getD i Val.null
  | none => Val.null

/-- Dtype of the column named `c` (object dtype when absent). -/
def kindOf (t : Table) (c : String) : Kind :=
  match colIdx t.header c with
  | some i => t.kinds.getD i Kind.cat
  | none => Kind.cat

/-- Numeric view of a cell: NaN and text contribute 0 to a skipna sum. -/
def toNum : Val → ℚ
  | Val.num q => q
  | _ => 0

/-- Is the cell admissible in a numeric-dtype column? -/
def isNumOrNull : Val → Bool
  | Val.str _ => false
  | _ => true

/-- Remove duplicates keeping the first occurrence of each element
(pandas `Series.unique` / `DataFrame.drop_duplicates` order). -/
def firstDedupAux {α : Type} [DecidableEq α] (seen : List α) : List α → List α
  | [] => []
  | a :: as =>
    if a ∈ seen then firstDedupAux seen as
    else a :: firstDedupAux (a :: seen) as

/-- Distinct elements of a list in first-seen order. -/
def firstDedup {α : Type} [DecidableEq α] (l : List α) : List α :=
  firstDedupAux [] l

/-- Code-point-wise lexicographic comparison of character lists (the
order Python uses on strings). -/
def charListLeb : List Char → List Char → Bool
  | [], _ => true
  | _ :: _, [] => false
  | a :: as, b :: bs => if a = b then charListLeb as bs else decide (a < b)

/-- String comparison through the underlying character lists. -/
def strLeb (a b : String) : Bool := charListLeb a.toList b.toList

/-- Total comparison on cells: numbers by value, texts by string order,
missing first (only used on homogeneous grouping keys, where it matches
the sort pandas applies to group labels). -/
def valLeb : Val → Val → Bool
  | Val.null, _ => true
  | Val.num _, Val.null => false
  | Val.num a, Val.num b => decide (a ≤ b)
  | Val.num _, Val.str _ => true
  | Val.str _, Val.null => false
  | Val.str _, Val.num _ => false
  | Val.str a, Val.str b => strLeb a b

/-- Lexicographic comparison of key tuples. -/
def keyLeb : List Val → List Val → Bool
  | [], _ => true
  | _ :: _, [] => false
  | a :: as, b :: bs => if a = b then keyLeb as bs else valLeb a b

/-- Propositional form of `valLeb`. -/
def valLe (a b : Val) : Prop := valLeb a b = true

/-- Propositional form of `keyLeb`. -/
def keyLe (a b : List Val) : Prop := keyLeb a b = true

instance : DecidableRel valLe := fun a b =>
  inferInstanceAs (Decidable (valLeb a b = true))

instance : DecidableRel keyLe := fun a b =>
  inferInstanceAs (Decidable (keyLeb a b = true))

/-! ### Filter engine (src/app.py lines 206-217) -/

/-- Distinct non-missing values of a column in first-seen order
(the multiselect options: df[col].dropna().unique().tolist()). -/
def dropnaUnique (t : Table) (c : String) : List Val :=
  firstDedup ((t.rows.map (fun r => getCell t.header r c)).filter
    (fun v => decide (v ≠ Val.null)))

/-- One filter widget: an empty selection leaves the table unchanged,
a non-empty selection keeps rows whose cell is a member of it
(df_filtered[df_filtered[col].isin(selected)]). -/
def filterStep (t : Table) (c : String) (sel : List Val) : Table :=
  if sel.isEmpty then t
  else { t with rows := t.rows.filter (fun r => sel.contains (getCell t.header r c)) }

/-- Apply the filter widgets left to right (the for-loop over filter_cols). -/
def applyFilters (t : Table) (fs : List (String × List Val)) : Table :=
  fs.foldl (fun acc p => filterStep acc p.1 p.2) t

/-! ### Pivot engine (src/app.py lines 232-245) -/

/-- The aggregation selectbox options. -/
inductive Agg : Type
  | sum : Agg
  | mean : Agg
  | count : Agg
  | max : Agg
  | min : Agg
deriving DecidableEq

/-- Pandas aggregation over the non-missing numeric values of a cell;
an empty cell yields 0 (sum of nothing, or NaN replaced by fill_value=0). -/
def aggregate : Agg → List ℚ → ℚ
  | Agg.sum, l => l.sum
  | Agg.mean, l => l.sum / (l.length : ℚ)
  | Agg.count, l => (l.length : ℚ)
  | Agg.max, [] => 0
  | Agg.max, a :: l => l.foldl (fun x y => if x ≤ y then y else x) a
  | Agg.min, [] => 0
  | Agg.min, a :: l => l.foldl (fun x y => if y ≤ x then y else x) a

/-- The numeric values of a list of cells, skipping NaN (skipna). -/
def numsOf (cells : List Val) : List ℚ :=
  cells.filterMap (fun v => match v with | Val.num q => some q | _ => none)

/-- The grouping-key tuple of a row. -/
def keyOf (h : List String) (fs : List String) (r : List Val) : List Val :=
  fs.map (getCell h r)

/-- Rows that survive grouping: pandas groupby drops any row with a
missing value in a row- or column-grouping field. -/
def validRows (t : Table) (rowFs colFs : List String) : List (List Val) :=
  t.rows.filter (fun r =>
    (rowFs ++ colFs).all (fun c => decide (getCell t.header r c ≠ Val.null)))

/-- str() of a cell as pandas prints it inside a flattened column name. -/
def valStr : Val → String
  | Val.null => "nan"
  | Val.num q => toString q
  | Val.str s => s

/-- Flattened cross-tab column name:
'_'.join(map(str, c)) over the MultiIndex tuple (valueField, colValue...). -/
def flatName (v : String) (combo : List Val) : String :=
  String.intercalate "_" (v :: combo.map valStr)

/-- The group keys of the pivot: the distinct rowField tuples of the
surviving rows, in ascending sorted order (pivot_table sort=True default). -/
def pivotKeys (t : Table) (rowFs colFs : List String) : List (List Val) :=
  List.insertionSort keyLe
    (firstDedup ((validRows t rowFs colFs).map (keyOf t.header rowFs)))

/-- The distinct colField tuples observed anywhere in the surviving rows,
in ascending sorted order (the unstacked column level). -/
def pivotCombos (t : Table) (rowFs colFs : List String) : List (List Val) :=
  List.insertionSort keyLe
    (firstDedup ((validRows t rowFs colFs).map (keyOf t.header colFs)))

/-- The (valueField, colField-combination) pairs in MultiIndex column
order: value level outermost, then the sorted combinations. -/
def pivotPairs (t : Table) (rowFs colFs valFs : List String) :
    List (String × List Val) :=
  (valFs.map (fun v => (pivotCombos t rowFs colFs).map (fun c => (v, c)))).flatten

/-- The value-column names of the pivot result: the valueFields unchanged
when colFs is empty, else the '_'.join-flattened MultiIndex tuples. -/
def pivotNames (t : Table) (rowFs colFs valFs : List String) : List String :=
  if colFs.isEmpty then valFs
  else (pivotPairs t rowFs colFs valFs).map (fun p => flatName p.1 p.2)

/-- The aggregated value cells of one output row (key `k`): one cell per
valueField (colFs empty) or per (valueField, combination) pair. -/
def pivotCells (t : Table) (rowFs colFs valFs : List String) (agg : Agg)
    (k : List Val) : List Val :=
  let h := t.header
  let vrows := validRows t rowFs colFs
  if colFs.isEmpty then
    valFs.map (fun v => Val.num (aggregate agg (numsOf
      ((vrows.filter (fun r => decide (keyOf h rowFs r = k))).map
        (fun r => getCell h r v)))))
  else
    (pivotPairs t rowFs colFs valFs).map (fun p => Val.num (aggregate agg (numsOf
      ((vrows.filter (fun r =>
          decide (keyOf h rowFs r = k) && decide (keyOf h colFs r = p.2))).map
        (fun r => getCell h r p.1)))))

/-- pd.pivot_table(df_filtered, index=rowFs, columns=colFs or None,
values=valFs, aggfunc=agg, fill_value=0), MultiIndex columns flattened with
'_'.join, then reset_index(). -/
def pivot_df (t : Table) (rowFs colFs valFs : List String) (agg : Agg) : Table :=
  { header := rowFs ++ pivotNames t rowFs colFs valFs
    kinds := rowFs.map (kindOf t)
      ++ (pivotNames t rowFs colFs valFs).map (fun _ => Kind.num)
    rows := (pivotKeys t rowFs colFs).map
      (fun k => k ++ pivotCells t rowFs colFs valFs agg k) }

/-! ### Data-explorer column cleaning and totals (src/app.py lines 418-454) -/

/-- Split a character list at every occurrence of the separator
(Python str.split for a one-character separator; always non-empty). -/
def splitOnChar (sep : Char) : List Char → List (List Char)
  | [] => [[]]
  | c :: cs =>
    if c = sep then [] :: splitOnChar sep cs
    else
      match splitOnChar sep cs with
      | [] => [[c]]
      | w :: ws => (c :: w) :: ws

/-- col.split("_")[-1] if "_" in col else col: the part of a column name
after its last underscore (the whole name when there is none). -/
def cleanName (s : String) : String :=
  String.mk ((splitOnChar '_' s.toList).getLastD s.toList)

/-- Rename every column of the flat pivot result by cleanName. -/
def cleanTable (t : Table) : Table :=
  { t with header := t.header.map cleanName }

/-- pivot_display.insert(0, "S.No", range(1, len+1)). -/
def insertSNo (t : Table) : Table :=
  { header := "S.No" :: t.header
    kinds := Kind.num :: t.kinds
    rows := t.rows.enum.map (fun p => Val.num ((p.1 : ℚ) + 1) :: p.2) }

/-- select_dtypes(include=np.number).columns with "S.No" removed. -/
def numericCols (t : Table) : List String :=
  (((t.header.zip t.kinds).filter (fun p => decide (p.2 = Kind.num))).map
    Prod.fst).erase "S.No"

/-- Column-wise skipna sum of the column named `c`. -/
def colSum (t : Table) (c : String) : ℚ :=
  (t.rows.map (fun r => toNum (getCell t.header r c))).sum

/-- The grand-total row: numeric columns get their column sum, "S.No" gets
an empty string, every other column gets the label "Grand Total". -/
def gtRowOf (t : Table) (ncols : List String) : List Val :=
  t.header.map (fun n =>
    if n = "S.No" then Val.str ""
    else if n ∈ ncols then Val.num (colSum t n)
    else Val.str "Grand Total")

/-- The summary augmenter: insert the row-number column, append the
grand-total row, then append the "Grand Total" column holding each row's
sum over the numeric columns (the appended total row included). -/
def augment (t0 : Table) : Table :=
  let t1 := insertSNo t0
  let ncols := numericCols t1
  let t2 : Table := { t1 with rows := t1.rows ++ [gtRowOf t1 ncols] }
  { header := t2.header ++ ["Grand Total"]
    kinds := t2.kinds ++ [Kind.num]
    rows := t2.rows.map (fun r =>
      r ++ [Val.num ((ncols.map (fun c => toNum (getCell t2.header r c))).sum)]) }

/-- The whole Data Explorer table path: clean column names, then augment. -/
def tabData (pivotT : Table) : Table :=
  augment (cleanTable pivotT)

/-- The numeric-dtype column names of a table (before the row-number
column is added). -/
def numNames (t : Table) : List String :=
  ((t.header.zip t.kinds).filter (fun p => decide (p.2 = Kind.num))).map Prod.fst

/-! ### Chart projector (src/app.py lines 302-310, 382-391, 405-408) -/

/-- plot_cols = [c for c in pivot_df.columns if c not in row_cols]. -/
def plotColsOf (t : Table) (idVars : List String) : List String :=
  t.header.filter (fun c => decide (c ∉ idVars))

/-- pivot_df.melt(id_vars=row_cols, value_vars=plot_cols, var_name="Metric",
value_name="Val"): one record per (value column x row), emitted
column-major (all rows of the first value column, then the next). -/
def meltTable (t : Table) (idVars : List String) : Table :=
  { header := idVars ++ ["Metric", "Val"]
    kinds := idVars.map (kindOf t) ++ [Kind.cat, Kind.num]
    rows := ((plotColsOf t idVars).map (fun v => t.rows.map (fun r =>
      idVars.map (getCell t.header r) ++ [Val.str v, getCell t.header r v]))).flatten }

/-- melted.groupby(keyCol)[valCol].sum().reset_index(): one output pair per
distinct non-missing key, keys ascending (groupby sort=True default). -/
def groupSumBy (t : Table) (keyCol valCol : String) : List (Val × ℚ) :=
  let ks := List.insertionSort valLe (firstDedup
    ((t.rows.map (fun r => getCell t.header r keyCol)).filter
      (fun v => decide (v ≠ Val.null))))
  ks.map (fun k => (k,
    ((t.rows.filter (fun r => decide (getCell t.header r keyCol = k))).map
      (fun r => toNum (getCell t.header r valCol))).sum))

/-- melted.groupby(main_x)["Val"].sum() with main_x = row_cols[0]:
the single-series bar/pie/donut data. -/
def simpleBarData (pivotT : Table) (rowFs : List String) : List (Val × ℚ) :=
  groupSumBy (meltTable pivotT rowFs) (rowFs.headD "") "Val"

/-! ### Loader for pasted text (src/app.py lines 128-157) -/

/-- Decimal digits folded into a number; fails on any non-digit. -/
def digitsVal (acc : Nat) : List Char → Option Nat
  | [] => some acc
  | c :: cs =>
    if c.isDigit then digitsVal (acc * 10 + (c.val - '0'.val).toNat) cs
    else none

/-- Numeric literal parsing, modelled as (signed) integer parsing. -/
def parseNumStr (s : String) : Option ℚ :=
  match s.toList with
  | [] => none
  | '-' :: rest =>
    if rest.isEmpty then none
    else (digitsVal 0 rest).map (fun n => ((-(n : Int) : Int) : ℚ))
  | l => (digitsVal 0 l).map (fun n => ((n : Int) : ℚ))

/-- A raw text cell: empty means missing, else number or text. -/
def parseCell (s : String) : Val :=
  if s = "" then Val.null
  else match parseNumStr s with
    | some q => Val.num q
    | none => Val.str s

/-- Pad a short row with missing cells up to the header width. -/
def padTo (w : Nat) (l : List Val) : List Val :=
  l ++ List.replicate (w - l.length) Val.null

/-- Dtype inference per column: numeric dtype exactly when every cell of
the column is missing or parses as a number. -/
def colKinds (w : Nat) (rows : List (List Val)) : List Kind :=
  (List.range w).map (fun i =>
    if rows.all (fun r => isNumOrNull (r.getD i Val.null)) then Kind.num
    else Kind.cat)

/-- The fields of one delimited line, as strings. -/
def splitFields (sep : Char) (line : String) : List String :=
  (splitOnChar sep line.toList).map String.mk

/-- pd.read_csv(StringIO(text), sep=sep) modelled over split lines: the
first non-blank line is the header; a data line with more fields than the
header is a parse error; shorter lines are padded with missing cells. -/
def parseDelim (sep : Char) (text : String) : Option Table :=
  let lines := ((splitOnChar '\n' text.toList).map String.mk).filter
    (fun l => decide (l ≠ ""))
  match lines with
  | [] => none
  | hd :: tl =>
    let header := splitFields sep hd
    let w := header.length
    if tl.any (fun l => decide (w < (splitFields sep l).length)) then none
    else
      let cells := tl.map (fun l => padTo w ((splitFields sep l).map parseCell))
      some { header := header, kinds := colKinds w cells, rows := cells }

/-- df.drop_duplicates(): exact-duplicate rows collapse to the first. -/
def dropDuplicates (t : Table) : Table :=
  { t with rows := firstDedup t.rows }

/-- The pasted-data branch: parse tab-delimited; when that parse yields
exactly one column, re-parse comma-delimited; deduplicate; any parse
failure is reported as an error (no table). -/
def loadPasted (text : String) : Option Table :=
  match parseDelim '\t' text with
  | none => none
  | some t =>
    if t.header.length = 1 then (parseDelim ',' text).map dropDuplicates
    else some (dropDuplicates t)

/-! ### Definitions following the spec's words, for refinement claims -/

/-- Modelled from the spec: a column "is Numeric if, after attempting
numeric coercion, more than 50% of its non-empty values parse
successfully". -/
def specClassifyNumeric (cells : List String) : Bool :=
  let nonEmpty := cells.filter (fun s => decide (s ≠ ""))
  decide (2 * (nonEmpty.filter (fun s => (parseNumStr s).isSome)).length
    > nonEmpty.length)

/-- Modelled from the spec: long-form records emitted "row-major then
field-order" (for every row, then every non-id field). -/
def specMeltRowMajor (t : Table) (idVars : List String) : List (List Val) :=
  let plotCols := t.header.filter (fun c => decide (c ∉ idVars))
  (t.rows.map (fun r => plotCols.map (fun v =>
    idVars.map (getCell t.header r) ++ [Val.str v, getCell t.header r v]))).flatten

/-- Modelled from the spec: "group long-form records by rowKey and sum
value, collapsing metricName, producing one value per rowKey" (rowKey =
the values of all id fields). -/
def specGroupByRowKey (t : Table) (idVars : List String) (valCol : String) :
    List (List Val × ℚ) :=
  (firstDedup (t.rows.map (fun r => idVars.map (getCell t.header r)))).map
    (fun k => (k,
      ((t.rows.filter (fun r => decide (idVars.map (getCell t.header r) = k))).map
        (fun r => toNum (getCell t.header r valCol))).sum))

/-! ### Concrete tables used by counterexamples and witnesses -/

/-- One row with a column-grouping field, for the naming counterexample. -/
def Tcross : Table :=
  { header := ["r", "c", "v"], kinds := [Kind.cat, Kind.cat, Kind.num],
    rows := [[Val.str "a", Val.str "x", Val.num 1]] }

/-- Two value fields crossed with one column value, for the cleaning claim. -/
def Tclean : Table :=
  { header := ["r", "c", "v1", "v2"],
    kinds := [Kind.cat, Kind.cat, Kind.num, Kind.num],
    rows := [[Val.str "a", Val.str "x", Val.num 1, Val.num 2]] }

/-- A value field whose name contains an underscore. -/
def Tunder : Table :=
  { header := ["r", "my_val"], kinds := [Kind.cat, Kind.num],
    rows := [[Val.str "a", Val.num 1]] }

/-- A wide table with two value columns, for the melt-order counterexample. -/
def Tmelt : Table :=
  { header := ["g", "a", "b"], kinds := [Kind.cat, Kind.num, Kind.num],
    rows := [[Val.str "g1", Val.num 1, Val.num 2],
             [Val.str "g2", Val.num 3, Val.num 4]] }

/-- Two id fields sharing their first component, for the single-series claim. -/
def Tkeys : Table :=
  { header := ["a", "b", "v"], kinds := [Kind.cat, Kind.cat, Kind.num],
    rows := [[Val.str "x", Val.str "y", Val.num 1],
             [Val.str "x", Val.str "z", Val.num 2]] }

/-- A small clean table for the grand-total witness. -/
def Tgt : Table :=
  { header := ["region", "sales"], kinds := [Kind.cat, Kind.num],
    rows := [[Val.str "E", Val.num 15], [Val.str "W", Val.num 20]] }

/-- A table with a missing categorical cell, for the filter witness. -/
def Tnull : Table :=
  { header := ["region", "sales"], kinds := [Kind.cat, Kind.num],
    rows := [[Val.str "E", Val.num 15], [Val.null, Val.num 7],
             [Val.str "W", Val.num 20]] }

/-- The table the loader produces from the pasted text "h\n1\n2\n3\nx". -/
def Tc4 : Table :=
  { header := ["h"], kinds := [Kind.cat],
    rows := [[Val.num 1], [Val.num 2], [Val.num 3], [Val.str "x"]] }

/-- The table the loader produces from the pasted text "a\tb\n1\t2". -/
def Tc8 : Table :=
  { header := ["a", "b"], kinds := [Kind.num, Kind.num],
    rows := [[Val.num 1, Val.num 2]] }

/-! ### Order lemmas for the grouping-key comparisons -/

theorem charListLeb_total : ∀ (a b : List Char),
    charListLeb a b = true ∨ charListLeb b a = true := by
  intro a
  induction a with
  | nil => exact fun b => Or.inl rfl
  | cons x xs ih =>
    intro b
    cases b with
    | nil => exact Or.inr rfl
    | cons y ys =>
      by_cases hxy : x = y
      · subst hxy
        simpa [charListLeb] using ih ys
      · have hyx : ¬ y = x := fun h => hxy h.symm
        rcases lt_or_gt_of_ne (show x ≠ y from hxy) with h | h
        · exact Or.inl (by simp [charListLeb, hxy, h])
        · exact Or.inr (by simp [charListLeb, hyx, h])

theorem charListLeb_antisymm : ∀ {a b : List Char},
    charListLeb a b = true → charListLeb b a = true → a = b := by
  intro a
  induction a with
  | nil =>
    intro b h1 h2
    cases b with
    | nil => rfl
    | cons y ys => simp [charListLeb] at h2
  | cons x xs ih =>
    intro b h1 h2
    cases b with
    | nil => simp [charListLeb] at h1
    | cons y ys =>
      by_cases hxy : x = y
      · subst hxy
        simp only [charListLeb, if_pos rfl] at h1 h2
        exact congrArg (x :: ·) (ih h1 h2)
      · have hyx : ¬ y = x := fun h => hxy h.symm
        have l1 : x < y := by simpa [charListLeb, hxy] using h1
        have l2 : y < x := by simpa [charListLeb, hyx] using h2
        exact absurd l1 (not_lt_of_gt l2)

theorem charListLeb_trans : ∀ {a b c : List Char},
    charListLeb a b = true → charListLeb b c = true → charListLeb a c = true := by
  intro a
  induction a with
  | nil => intro b c _ _; rfl
  | cons x xs ih =>
    intro b c h1 h2
    cases b with
    | nil => simp [charListLeb] at h1
    | cons y ys =>
      cases c with
      | nil => simp [charListLeb] at h2
      | cons z zs =>
        by_cases hxy : x = y
        · subst hxy
          by_cases hyz : x = z
          · subst hyz
            simp only [charListLeb, if_pos rfl] at h1 h2 ⊢
            exact ih h1 h2
          · simp only [charListLeb, if_pos rfl] at h1
            simpa [charListLeb, hyz] using (by simpa [charListLeb, hyz] using h2)
        · by_cases hyz : y = z
          · subst hyz
            simpa [charListLeb, hxy] using (by simpa [charListLeb, hxy] using h1)
          · have l1 : x < y := by simpa [charListLeb, hxy] using h1
            have l2 : y < z := by simpa [charListLeb, hyz] using h2
            have hxz : ¬ x = z := by
              intro h
              subst h
              exact absurd (lt_trans l1 l2) (lt_irrefl x)
            simpa [charListLeb, hxz] using decide_eq_true (lt_trans l1 l2)

theorem strLeb_total (a b : String) : strLeb a b = true ∨ strLeb b a = true :=
  charListLeb_total a.toList b.toList

theorem strLeb_antisymm {a b : String} (h1 : strLeb a b = true)
    (h2 : strLeb b a = true) : a = b := by
  cases a with
  | mk da =>
    cases b with
    | mk db => exact congrArg String.mk (charListLeb_antisymm h1 h2)

theorem strLeb_trans {a b c : String} (h1 : strLeb a b = true)
    (h2 : strLeb b c = true) : strLeb a c = true :=
  charListLeb_trans h1 h2

theorem valLeb_total : ∀ (a b : Val), valLeb a b = true ∨ valLeb b a = true
  | Val.null, _ => Or.inl rfl
  | Val.num _, Val.null => Or.inr rfl
  | Val.str _, Val.null => Or.inr rfl
  | Val.num a, Val.num b =>
    (le_total a b).imp decide_eq_true decide_eq_true
  | Val.num _, Val.str _ => Or.inl rfl
  | Val.str _, Val.num _ => Or.inr rfl
  | Val.str a, Val.str b => strLeb_total a b

theorem valLeb_antisymm : ∀ {a b : Val},
    valLeb a b = true → valLeb b a = true → a = b
  | Val.null, Val.null, _, _ => rfl
  | Val.null, Val.num _, _, h2 => by simp [valLeb] at h2
  | Val.null, Val.str _, _, h2 => by simp [valLeb] at h2
  | Val.num _, Val.null, h1, _ => by simp [valLeb] at h1
  | Val.num a, Val.num b, h1, h2 =>
    congrArg Val.num (le_antisymm (of_decide_eq_true h1) (of_decide_eq_true h2))
  | Val.num _, Val.str _, _, h2 => by simp [valLeb] at h2
  | Val.str _, Val.null, h1, _ => by simp [valLeb] at h1
  | Val.str _, Val.num _, h1, _ => by simp [valLeb] at h1
  | Val.str a, Val.str b, h1, h2 =>
    congrArg Val.str (strLeb_antisymm h1 h2)

theorem valLeb_trans : ∀ {a b c : Val},
    valLeb a b = true → valLeb b c = true → valLeb a c = true
  | Val.null, _, _, _, _ => rfl
  | Val.num _, Val.null, _, h1, _ => by simp [valLeb] at h1
  | Val.str _, Val.null, _, h1, _ => by simp [valLeb] at h1
  | Val.num _, Val.num _, Val.null, _, h2 => by simp [valLeb] at h2
  | Val.num a, Val.num b, Val.num c, h1, h2 =>
    decide_eq_true (le_trans (of_decide_eq_true h1) (of_decide_eq_true h2))
  | Val.num _, Val.num _, Val.str _, _, _ => rfl
  | Val.num _, Val.str _, Val.null, _, h2 => by simp [valLeb] at h2
  | Val.num _, Val.str _, Val.num _, _, h2 => by simp [valLeb] at h2
  | Val.num _, Val.str _, Val.str _, _, _ => rfl
  | Val.str _, Val.num _, _, h1, _ => by simp [valLeb] at h1
  | Val.str _, Val.str _, Val.null, _, h2 => by simp [valLeb] at h2
  | Val.str _, Val.str _, Val.num _, _, h2 => by simp [valLeb] at h2
  | Val.str a, Val.str b, Val.str c, h1, h2 => strLeb_trans h1 h2

theorem keyLeb_total (a b : List Val) : keyLeb a b = true ∨ keyLeb b a = true := by
  induction a generalizing b with
  | nil => left; rfl
  | cons x xs ih =>
    cases b with
    | nil => right; rfl
    | cons y ys =>
      by_cases hxy : x = y
      · subst hxy
        simpa [keyLeb] using ih ys
      · have hyx : ¬ y = x := fun h => hxy h.symm
        simpa [keyLeb, hxy, hyx] using valLeb_total x y

theorem keyLeb_trans {a b c : List Val} (h1 : keyLeb a b = true)
    (h2 : keyLeb b c = true) : keyLeb a c = true := by
  induction a generalizing b c with
  | nil => rfl
  | cons x xs ih =>
    cases b with
    | nil => simp [keyLeb] at h1
    | cons y ys =>
      cases c with
      | nil => simp [keyLeb] at h2
      | cons z zs =>
        by_cases hxy : x = y
        · subst hxy
          by_cases hyz : x = z
          · subst hyz
            simp only [keyLeb, if_pos rfl] at h1 h2 ⊢
            exact ih h1 h2
          · simp only [keyLeb, if_pos rfl] at h1
            simpa [keyLeb, hyz] using (by simpa [keyLeb, hyz] using h2)
        · by_cases hyz : y = z
          · subst hyz
            simpa [keyLeb, hxy] using (by simpa [keyLeb, hxy] using h1)
          · have hvxy : valLeb x y = true := by simpa [keyLeb, hxy] using h1
            have hvyz : valLeb y z = true := by simpa [keyLeb, hyz] using h2
            have hxz : ¬ x = z := by
              intro h
              subst h
              exact hxy (valLeb_antisymm hvxy hvyz)
            simpa [keyLeb, hxz] using valLeb_trans hvxy hvyz

instance : IsTotal (List Val) keyLe := ⟨keyLeb_total⟩

instance : IsTrans (List Val) keyLe := ⟨fun _ _ _ => keyLeb_trans⟩

instance : IsTotal Val valLe := ⟨valLeb_total⟩

instance : IsTrans Val valLe := ⟨fun _ _ _ => valLeb_trans⟩

/-! ### Lemmas about first-seen deduplication -/

theorem mem_firstDedupAux {α : Type} [DecidableEq α] {x : α} :
    ∀ {seen l : List α}, x ∈ firstDedupAux seen l ↔ x ∈ l ∧ x ∉ seen := by
  intro seen l
  induction l generalizing seen with
  | nil => simp [firstDedupAux]
  | cons a as ih =>
    by_cases ha : a ∈ seen
    · simp only [firstDedupAux, if_pos ha, ih, List.mem_cons]
      constructor
      · rintro ⟨hx, hs⟩
        exact ⟨Or.inr hx, hs⟩
      · rintro ⟨hx | hx, hs⟩
        · exact absurd (hx ▸ ha) hs
        · exact ⟨hx, hs⟩
    · simp only [firstDedupAux, if_neg ha, List.mem_cons, ih]
      constructor
      · rintro (hx | ⟨hx, hs⟩)
        · subst hx
          exact ⟨Or.inl rfl, ha⟩
        · exact ⟨Or.inr hx, fun hc => hs (Or.inr hc)⟩
      · rintro ⟨hx | hx, hs⟩
        · exact Or.inl hx
        · by_cases hxa : x = a
          · exact Or.inl hxa
          · exact Or.inr ⟨hx, by simp [hxa, hs]⟩

theorem mem_firstDedup {α : Type} [DecidableEq α] {x : α} {l : List α} :
    x ∈ firstDedup l ↔ x ∈ l := by
  simp [firstDedup, mem_firstDedupAux]

theorem nodup_firstDedupAux {α : Type} [DecidableEq α] :
    ∀ (seen l : List α), (firstDedupAux seen l).Nodup := by
  intro seen l
  induction l generalizing seen with
  | nil => exact List.nodup_nil
  | cons a as ih =>
    by_cases ha : a ∈ seen
    · simpa [firstDedupAux, if_pos ha] using ih seen
    · rw [show firstDedupAux seen (a :: as)
          = a :: firstDedupAux (a :: seen) as by simp [firstDedupAux, ha]]
      refine List.nodup_cons.mpr ⟨?_, ih (a :: seen)⟩
      intro hmem
      exact absurd (List.mem_cons_self a seen) (mem_firstDedupAux.mp hmem).2

theorem nodup_firstDedup {α : Type} [DecidableEq α] (l : List α) :
    (firstDedup l).Nodup :=
  nodup_firstDedupAux [] l

theorem toFinset_firstDedup {α : Type} [DecidableEq α] (l : List α) :
    (firstDedup l).toFinset = l.toFinset := by
  ext x
  simp [mem_firstDedup]

theorem length_firstDedup {α : Type} [DecidableEq α] (l : List α) :
    (firstDedup l).length = l.toFinset.card := by
  rw [← toFinset_firstDedup]
  exact (List.toFinset_card_of_nodup (nodup_firstDedup l)).symm

/-! ### Lemmas about label lookup -/

theorem colIdx_spec : ∀ {h : List String} {c : String} {i : Nat},
    colIdx h c = some i → i < h.length ∧ h.getD i "" = c := by
  intro h
  induction h with
  | nil => intro c i hc; simp [colIdx] at hc
  | cons a as ih =>
    intro c i hc
    by_cases hac : a = c
    · simp only [colIdx, if_pos hac] at hc
      cases hc
      simpa using hac
    · simp only [colIdx, if_neg hac, Option.map_eq_some'] at hc
      obtain ⟨j, hj, hji⟩ := hc
      obtain ⟨hlt, hget⟩ := ih hj
      subst hji
      exact ⟨Nat.succ_lt_succ hlt, by simpa using hget⟩

theorem colIdx_isSome_of_mem {h : List String} {c : String} (hc : c ∈ h) :
    ∃ i, colIdx h c = some i := by
  induction h with
  | nil => cases hc
  | cons a as ih =>
    by_cases hac : a = c
    · exact ⟨0, by simp [colIdx, hac]⟩
    · have hmem : c ∈ as := by
        cases List.mem_cons.mp hc with
        | inl hh => exact absurd hh.symm hac
        | inr hh => exact hh
      obtain ⟨i, hi⟩ := ih hmem
      exact ⟨i + 1, by simp [colIdx, hac, hi]⟩

theorem colIdx_append_left {h h2 : List String} {c : String} {i : Nat}
    (hc : colIdx h c = some i) : colIdx (h ++ h2) c = some i := by
  induction h generalizing i with
  | nil => simp [colIdx] at hc
  | cons a as ih =>
    by_cases hac : a = c
    · simp only [colIdx, if_pos hac] at hc ⊢
      exact hc
    · simp only [colIdx, if_neg hac, Option.map_eq_some'] at hc ⊢
      obtain ⟨j, hj, hji⟩ := hc
      exact ⟨j, ih hj, hji⟩

theorem getCell_header_append {h h2 : List String} {c : String}
    (hc : c ∈ h) (r : List Val) : getCell (h ++ h2) r c = getCell h r c := by
  obtain ⟨i, hi⟩ := colIdx_isSome_of_mem hc
  rw [getCell, getCell, hi, colIdx_append_left hi]

theorem getD_append_left {α : Type} {r : List α} {i : Nat} (s : List α) (d : α)
    (hi : i < r.length) : (r ++ s).getD i d = r.getD i d := by
  induction r generalizing i with
  | nil => exact absurd hi (Nat.not_lt_zero i)
  | cons x rs ih =>
    cases i with
    | zero => rfl
    | succ j => simpa using ih (Nat.lt_of_succ_lt_succ hi)

theorem getD_append_right_off {α : Type} {r s : List α} {i : Nat} (d : α) :
    (r ++ s).getD (r.length + i) d = s.getD i d := by
  induction r with
  | nil => simp
  | cons x rs ih =>
    rw [List.cons_append,
      show (x :: rs).length + i = (rs.length + i) + 1 by
        simp [Nat.succ_add, List.length_cons]]
    simpa using ih

theorem getCell_row_append {h : List String} {c : String} {i : Nat}
    (hc : colIdx h c = some i) {r : List Val} (hi : i < r.length)
    (s : List Val) : getCell h (r ++ s) c = getCell h r c := by
  rw [getCell, getCell, hc]
  exact getD_append_left s Val.null hi

theorem getCell_cons_of_ne {a c : String} (hac : a ≠ c) (h : List String)
    (x : Val) (r : List Val) : getCell (a :: h) (x :: r) c = getCell h r c := by
  rw [getCell, getCell]
  simp only [colIdx, if_neg hac]
  cases hidx : colIdx h c with
  | none => simp [hidx]
  | some i => simp [hidx]

theorem getCell_header_map {h : List String} {c : String} (hc : c ∈ h)
    (f : String → Val) : getCell h (h.map f) c = f c := by
  obtain ⟨i, hi⟩ := colIdx_isSome_of_mem hc
  obtain ⟨hlt, hget⟩ := colIdx_spec hi
  have hstep : getCell h (h.map f) c = (h.map f).getD i Val.null := by
    rw [getCell, hi]
  rw [hstep, List.getD_eq_getElem _ _ (by simpa using hlt), List.getElem_map,
    ← hget, List.getD_eq_getElem _ _ hlt]

/-! ### Sum-swapping lemmas -/

theorem sum_map_zero {β : Type} (m : List β) :
    (m.map (fun _ => (0 : ℚ))).sum = 0 := by
  induction m with
  | nil => rfl
  | cons b bs ih => simp [ih]

theorem sum_map_add {β : Type} (m : List β) (g f : β → ℚ) :
    (m.map (fun b => g b + f b)).sum = (m.map g).sum + (m.map f).sum := by
  induction m with
  | nil => simp
  | cons b bs ih =>
    simp only [List.map_cons, List.sum_cons, ih]
    ring

theorem sum_map_swap {α β : Type} (l : List α) (m : List β) (f : α → β → ℚ) :
    (l.map (fun a => (m.map (f a)).sum)).sum
      = (m.map (fun b => (l.map (fun a => f a b)).sum)).sum := by
  induction l with
  | nil => simp [sum_map_zero]
  | cons a as ih =>
    simp only [List.map_cons, List.sum_cons, ih]
    rw [← sum_map_add m (f a) (fun b => (as.map (fun x => f x b)).sum)]

/-! ### Lemmas about the summary augmenter -/

theorem enumFrom_map_snd {α β : Type} (f : α → β) :
    ∀ (n : Nat) (l : List α), (List.enumFrom n l).map (fun p => f p.2) = l.map f := by
  intro n l
  induction l generalizing n with
  | nil => rfl
  | cons a as ih => simp [List.enumFrom, ih]

theorem snd_mem_of_mem_enumFrom {α : Type} :
    ∀ {n : Nat} {l : List α} {p : Nat × α}, p ∈ List.enumFrom n l → p.2 ∈ l := by
  intro n l
  induction l generalizing n with
  | nil => intro p hp; cases hp
  | cons a as ih =>
    intro p hp
    cases List.mem_cons.mp hp with
    | inl h => subst h; exact List.mem_cons_self a as
    | inr h => exact List.mem_cons_of_mem a (ih h)

theorem getLastD_append_singleton {α : Type} (l : List α) (a d : α) :
    (l ++ [a]).getLastD d = a := by
  induction l generalizing d with
  | nil => rfl
  | cons x xs ih =>
    rw [List.cons_append, List.getLastD_cons]
    exact ih x

theorem numericCols_insertSNo (t0 : Table) :
    numericCols (insertSNo t0) = numNames t0 := by
  simp [numericCols, insertSNo, numNames, List.filter_cons]

theorem mem_header_of_mem_numNames {t0 : Table} {c : String}
    (hc : c ∈ numNames t0) : c ∈ t0.header := by
  simp only [numNames, List.mem_map] at hc
  obtain ⟨p, hp, hpc⟩ := hc
  obtain ⟨p1, p2⟩ := p
  exact hpc ▸ (List.of_mem_zip (List.mem_of_mem_filter hp)).1

theorem colSum_insertSNo (t0 : Table) {c : String} (hc : c ≠ "S.No") :
    colSum (insertSNo t0) c = colSum t0 c := by
  show ((t0.rows.enum.map (fun p => Val.num ((p.1 : ℚ) + 1) :: p.2)).map
      (fun r => toNum (getCell ("S.No" :: t0.header) r c))).sum
    = (t0.rows.map (fun r => toNum (getCell t0.header r c))).sum
  rw [List.map_map]
  have hfun : ((fun r => toNum (getCell ("S.No" :: t0.header) r c))
        ∘ (fun p : Nat × List Val => Val.num ((p.1 : ℚ) + 1) :: p.2))
      = fun p : Nat × List Val => toNum (getCell t0.header p.2 c) := by
    funext p
    simp only [Function.comp]
    rw [getCell_cons_of_ne (fun h => hc h.symm)]
  rw [hfun, List.enum]
  rw [enumFrom_map_snd (fun r => toNum (getCell t0.header r c)) 0 t0.rows]

theorem mem_insertSNo_rows {t0 : Table} {r1 : List Val}
    (h : r1 ∈ (insertSNo t0).rows) :
    ∃ q r, r ∈ t0.rows ∧ r1 = Val.num q :: r := by
  simp only [insertSNo, List.mem_map] at h
  obtain ⟨p, hp, hpr⟩ := h
  exact ⟨(p.1 : ℚ) + 1, p.2, snd_mem_of_mem_enumFrom (by simpa [List.enum] using hp),
    hpr.symm⟩

theorem gtRowOf_cell (t0 : Table) (hs : "S.No" ∉ t0.header) {c : String}
    (hc : c ∈ numNames t0) :
    getCell (insertSNo t0).header
      (gtRowOf (insertSNo t0) (numericCols (insertSNo t0))) c
      = Val.num (colSum t0 c) := by
  have hmem : c ∈ t0.header := mem_header_of_mem_numNames hc
  have hne : c ≠ "S.No" := fun h => hs (h ▸ hmem)
  have hmem1 : c ∈ (insertSNo t0).header := List.mem_cons_of_mem _ hmem
  rw [show gtRowOf (insertSNo t0) (numericCols (insertSNo t0))
      = (insertSNo t0).header.map (fun n =>
          if n = "S.No" then Val.str ""
          else if n ∈ numericCols (insertSNo t0)
            then Val.num (colSum (insertSNo t0) n)
          else Val.str "Grand Total") from rfl]
  rw [getCell_header_map hmem1]
  rw [if_neg hne]
  rw [if_pos (by rw [numericCols_insertSNo]; exact hc)]
  rw [colSum_insertSNo t0 hne]

/-- C1: in a table augmented with both a grand-total row and a grand-total
column, the intersection cell (last row, last column) equals the sum of
all numeric value cells over the data rows, and for every numeric column
(excluding the row-number field) the grand-total row's cell equals that
column's sum over all data rows. -/
theorem c1_grand_total_invariant (t0 : Table)
    (_hnodup : t0.header.Nodup)
    (_hk : t0.kinds.length = t0.header.length)
    (hwf : ∀ r ∈ t0.rows, r.length = t0.header.length)
    (hs : "S.No" ∉ t0.header)
    (_hg : "Grand Total" ∉ t0.header) :
    ((augment t0).rows.getLastD []).getLastD Val.null
        = Val.num ((t0.rows.map (fun r =>
            ((numNames t0).map (fun c => toNum (getCell t0.header r c))).sum)).sum)
      ∧ ∀ c ∈ numNames t0,
          getCell (augment t0).header ((augment t0).rows.getLastD []) c
            = Val.num ((((augment t0).rows.dropLast).map (fun r =>
                toNum (getCell (augment t0).header r c))).sum) := by
  have haugrows : (augment t0).rows
      = ((insertSNo t0).rows
          ++ [gtRowOf (insertSNo t0) (numericCols (insertSNo t0))]).map
          (fun r => r ++ [Val.num (((numericCols (insertSNo t0)).map
            (fun c => toNum (getCell (insertSNo t0).header r c))).sum)]) := rfl
  have haughead : (augment t0).header
      = (insertSNo t0).header ++ ["Grand Total"] := rfl
  have hlast : (augment t0).rows.getLastD []
      = gtRowOf (insertSNo t0) (numericCols (insertSNo t0))
        ++ [Val.num (((numericCols (insertSNo t0)).map (fun c =>
            toNum (getCell (insertSNo t0).header
              (gtRowOf (insertSNo t0) (numericCols (insertSNo t0))) c))).sum)] := by
    rw [haugrows, List.map_append]
    simp only [List.map_cons, List.map_nil]
    exact getLastD_append_singleton _ _ _
  have hmapeq : ((numericCols (insertSNo t0)).map (fun c =>
        toNum (getCell (insertSNo t0).header
          (gtRowOf (insertSNo t0) (numericCols (insertSNo t0))) c)))
      = (numNames t0).map (fun c => colSum t0 c) := by
    rw [numericCols_insertSNo]
    refine List.map_congr_left ?_
    intro c hc
    rw [show numNames t0 = numericCols (insertSNo t0) from
      (numericCols_insertSNo t0).symm, gtRowOf_cell t0 hs hc]
    rfl
  constructor
  · rw [hlast, getLastD_append_singleton, hmapeq]
    congr 1
    exact sum_map_swap (numNames t0) t0.rows
      (fun c r => toNum (getCell t0.header r c))
  · intro c hc
    have hmem : c ∈ t0.header := mem_header_of_mem_numNames hc
    have hne : c ≠ "S.No" := fun h => hs (h ▸ hmem)
    have hmem1 : c ∈ (insertSNo t0).header := List.mem_cons_of_mem _ hmem
    obtain ⟨i, hi⟩ := colIdx_isSome_of_mem hmem1
    have hilt : i < (insertSNo t0).header.length := (colIdx_spec hi).1
    have hLHS : getCell (augment t0).header ((augment t0).rows.getLastD []) c
        = Val.num (colSum t0 c) := by
      rw [hlast, haughead, getCell_header_append hmem1]
      have hglen : i < (gtRowOf (insertSNo t0)
          (numericCols (insertSNo t0))).length := by
        rw [show (gtRowOf (insertSNo t0) (numericCols (insertSNo t0))).length
          = (insertSNo t0).header.length by simp [gtRowOf]]
        exact hilt
      rw [getCell_row_append hi hglen]
      exact gtRowOf_cell t0 hs hc
    have hdrop : (augment t0).rows.dropLast
        = (insertSNo t0).rows.map (fun r =>
            r ++ [Val.num (((numericCols (insertSNo t0)).map
              (fun cc => toNum (getCell (insertSNo t0).header r cc))).sum)]) := by
      rw [haugrows, List.map_append]
      simp only [List.map_cons, List.map_nil]
      exact List.dropLast_concat
    have hRHS : (((augment t0).rows.dropLast).map (fun r =>
          toNum (getCell (augment t0).header r c))).sum = colSum t0 c := by
      rw [hdrop, List.map_map]
      have hmapeq2 : ((insertSNo t0).rows.map ((fun r =>
            toNum (getCell (augment t0).header r c)) ∘ (fun r =>
              r ++ [Val.num (((numericCols (insertSNo t0)).map
                (fun cc => toNum (getCell (insertSNo t0).header r cc))).sum)])))
          = (insertSNo t0).rows.map (fun r1 =>
              toNum (getCell (insertSNo t0).header r1 c)) := by
        refine List.map_congr_left ?_
        intro r1 hr1
        obtain ⟨q, r, hr, hr1eq⟩ := mem_insertSNo_rows hr1
        have hlen : i < r1.length := by
          rw [hr1eq]
          have hrlen := hwf r hr
          simp only [List.length_cons, hrlen]
          simpa [insertSNo] using hilt
        simp only [Function.comp]
        rw [haughead, getCell_header_append hmem1, getCell_row_append hi hlen]
      rw [hmapeq2]
      rw [show ((insertSNo t0).rows.map (fun r1 =>
          toNum (getCell (insertSNo t0).header r1 c))).sum
        = colSum (insertSNo t0) c from rfl]
      exact colSum_insertSNo t0 hne
    rw [hLHS, hRHS]

/-! ### Lemmas about the pivot engine -/

/-- C3 fails on the code: the flattened cross-tab column name for
valueField "v" and colField value "x" is "v_x" (valueField first), not
"x_v" (combination first) as the claim requires; moreover the display
path's underscore parsing recovers "x" (the colField value), not the
valueField "v". -/
theorem c3_column_naming_counterexample :
    (pivot_df Tcross ["r"] ["c"] ["v"] Agg.sum).header = ["r", "v_x"]
      ∧ "x_v" ∉ (pivot_df Tcross ["r"] ["c"] ["v"] Agg.sum).header
      ∧ cleanName "v_x" = "x" := by
  refine ⟨by decide, by decide, by decide⟩

/-- C3 amended: with non-empty colFields every value column of the pivot
output is named by joining the valueField name first with the
combination's stringified values, underscore-separated; with empty
colFields the value columns keep the valueField names unchanged. -/
theorem c3_flattened_column_names (t : Table)
    (rowFs colFs valFs : List String) (agg : Agg) :
    (colFs ≠ [] →
        ∀ name ∈ (pivot_df t rowFs colFs valFs agg).header.drop rowFs.length,
          ∃ v ∈ valFs,
            ∃ combo ∈ (validRows t rowFs colFs).map (keyOf t.header colFs),
              name = flatName v combo)
      ∧ (colFs = [] →
          (pivot_df t rowFs colFs valFs agg).header = rowFs ++ valFs) := by
  constructor
  · intro hcne name hname
    have hdrop : (pivot_df t rowFs colFs valFs agg).header.drop rowFs.length
        = pivotNames t rowFs colFs valFs := by
      show (rowFs ++ pivotNames t rowFs colFs valFs).drop rowFs.length = _
      exact List.drop_left rowFs _
    rw [hdrop] at hname
    have hcne2 : colFs.isEmpty = false := by
      simpa [List.isEmpty_iff] using hcne
    rw [pivotNames, if_neg (by simp [hcne2])] at hname
    obtain ⟨p, hp, hpname⟩ := List.mem_map.mp hname
    rw [pivotPairs] at hp
    obtain ⟨l, hl, hpl⟩ := List.mem_flatten.mp hp
    obtain ⟨v, hv, hlv⟩ := List.mem_map.mp hl
    rw [← hlv] at hpl
    obtain ⟨combo, hcombo, hpcombo⟩ := List.mem_map.mp hpl
    have hcombo2 : combo ∈ (validRows t rowFs colFs).map (keyOf t.header colFs) := by
      have : combo ∈ firstDedup ((validRows t rowFs colFs).map
          (keyOf t.header colFs)) := by
        simpa [pivotCombos] using hcombo
      exact mem_firstDedup.mp this
    refine ⟨v, hv, combo, hcombo2, ?_⟩
    rw [← hpname, ← hpcombo]
  · intro hce
    subst hce
    show rowFs ++ pivotNames t rowFs [] valFs = rowFs ++ valFs
    simp [pivotNames]

/-- Witness: the amended naming statement evaluated on `Tcross`, where the
single value column is named "v_x". -/
theorem c3_flattened_column_names_witness :
    ∃ v ∈ (["v"] : List String),
      ∃ combo ∈ (validRows Tcross ["r"] ["c"]).map (keyOf Tcross.header ["c"]),
        "v_x" = flatName v combo :=
  (c3_flattened_column_names Tcross ["r"] ["c"] ["v"] Agg.sum).1
    (by decide) "v_x" (by decide)

/-! ### Lemmas about the loader -/

theorem parseDelim_kinds {sep : Char} {text : String} {u : Table}
    (h : parseDelim sep text = some u) :
    u.kinds = colKinds u.header.length u.rows := by
  unfold parseDelim at h
  dsimp only at h
  split at h
  · exact absurd h (by simp)
  · split at h
    · exact absurd h (by simp)
    · injection h with h2
      subst h2
      rfl

theorem loadPasted_some {text : String} {t : Table}
    (h : loadPasted text = some t) :
    ∃ u, (parseDelim '\t' text = some u ∨ parseDelim ',' text = some u)
      ∧ t = dropDuplicates u := by
  unfold loadPasted at h
  cases htab : parseDelim '\t' text with
  | none => rw [htab] at h; cases h
  | some u1 =>
    rw [htab] at h
    dsimp only at h
    by_cases hone : u1.header.length = 1
    · rw [if_pos hone] at h
      cases hcomma : parseDelim ',' text with
      | none => rw [hcomma] at h; cases h
      | some u2 =>
        rw [hcomma] at h
        refine ⟨u2, Or.inr rfl, ?_⟩
        simpa using h.symm
    · rw [if_neg hone] at h
      exact ⟨u1, Or.inl rfl, by simpa using h.symm⟩

theorem colKinds_getD {w : Nat} {rows : List (List Val)} {i : Nat} (hi : i < w) :
    (colKinds w rows).getD i Kind.cat
      = (if rows.all (fun r => isNumOrNull (r.getD i Val.null)) then Kind.num
         else Kind.cat) := by
  rw [colKinds, List.getD_eq_getElem _ _ (by simpa using hi), List.getElem_map,
    List.getElem_range]

/-- C4 fails on the code: for the pasted column (1, 2, 3, x), 75% of the
non-empty values parse as numbers, so the claimed rule classifies it
Numeric, but the loader classifies it Categorical (pandas dtype inference
needs every value to parse); and a missing cell stays missing instead of
being imputed with "Unknown". -/
theorem c4_classification_counterexample :
    loadPasted "h\n1\n2\n3\nx" = some Tc4
      ∧ Tc4.kinds = [Kind.cat]
      ∧ specClassifyNumeric ["1", "2", "3", "x"] = true
      ∧ loadPasted "a\tb\nx\t\ny\tz"
          = some { header := ["a", "b"], kinds := [Kind.cat, Kind.cat],
                   rows := [[Val.str "x", Val.null], [Val.str "y", Val.str "z"]] } := by
  refine ⟨by decide, by decide, by decide, by decide⟩

/-- C4 amended: a loaded column is classified Numeric exactly when every
cell of the column is missing or parses as a number (pandas dtype
inference); no median or "Unknown" imputation occurs. -/
theorem c4_dtype_classification (text : String) (t : Table)
    (h : loadPasted text = some t) :
    ∀ i, i < t.header.length →
      (t.kinds.getD i Kind.cat = Kind.num ↔
        ∀ r ∈ t.rows, isNumOrNull (r.getD i Val.null) = true) := by
  obtain ⟨u, hu, ht⟩ := loadPasted_some h
  have hk : u.kinds = colKinds u.header.length u.rows := by
    cases hu with
    | inl h1 => exact parseDelim_kinds h1
    | inr h1 => exact parseDelim_kinds h1
  subst ht
  intro i hi
  have hi2 : i < u.header.length := hi
  rw [show (dropDuplicates u).kinds = u.kinds from rfl, hk, colKinds_getD hi2]
  by_cases hall : u.rows.all (fun r => isNumOrNull (r.getD i Val.null))
  · rw [if_pos hall]
    constructor
    · intro _ r hr
      exact List.all_eq_true.mp hall r (mem_firstDedup.mp hr)
    · intro _
      rfl
  · rw [if_neg hall]
    constructor
    · intro hcc
      exact absurd hcc (by simp)
    · intro hforall
      exact absurd (List.all_eq_true.mpr
        (fun r hr => hforall r (mem_firstDedup.mpr hr))) hall

/-- Witness: the amended classification statement evaluated on the loaded
column (1, 2, 3, x), which is Categorical. -/
theorem c4_dtype_classification_witness :
    Tc4.kinds.getD 0 Kind.cat = Kind.num ↔
      ∀ r ∈ Tc4.rows, isNumOrNull (r.getD 0 Val.null) = true :=
  c4_dtype_classification "h\n1\n2\n3\nx" Tc4 (by decide) 0 (by decide)

/-! ### Lemmas about the chart projector -/

theorem length_flatten_uniform {α β : Type} (L : List α) (f : α → List β)
    (N : Nat) (h : ∀ x ∈ L, (f x).length = N) :
    ((L.map f).flatten).length = L.length * N := by
  induction L with
  | nil => simp
  | cons a as ih =>
    simp only [List.map_cons, List.flatten_cons, List.length_append]
    rw [h a (List.mem_cons_self a as),
      ih (fun x hx => h x (List.mem_cons_of_mem a hx)),
      List.length_cons, Nat.succ_mul, Nat.add_comm]

theorem getD_flatten_uniform {α β : Type} {L : List α} {f : α → List β}
    {N : Nat} (h : ∀ x ∈ L, (f x).length = N) (d : β) :
    ∀ {j i : Nat} (hj : j < L.length), i < N →
      ((L.map f).flatten).getD (j * N + i) d = (f (L.get ⟨j, hj⟩)).getD i d := by
  induction L with
  | nil => intro j i hj _; exact absurd hj (Nat.not_lt_zero j)
  | cons a as ih =>
    intro j i hj hi
    cases j with
    | zero =>
      simp only [List.map_cons, List.flatten_cons, Nat.zero_mul, Nat.zero_add]
      rw [getD_append_left _ d (by rw [h a (List.mem_cons_self a as)]; exact hi)]
      rfl
    | succ j2 =>
      simp only [List.map_cons, List.flatten_cons]
      rw [show (j2 + 1) * N + i = (f a).length + (j2 * N + i) by
        rw [h a (List.mem_cons_self a as), Nat.succ_mul]; omega]
      rw [getD_append_right_off d]
      have hj2 : j2 < as.length := by
        have hj3 := hj
        simp only [List.length_cons] at hj3
        omega
      exact ih (fun x hx => h x (List.mem_cons_of_mem a hx)) hj2 hi

/-- C5 fails on the code: melting the two-row, two-value-column table
emits the records column-major (both rows of column a, then both rows of
column b), not row-major as the claim requires. -/
theorem c5_melt_order_counterexample :
    (meltTable Tmelt ["g"]).rows ≠ specMeltRowMajor Tmelt ["g"]
      ∧ (meltTable Tmelt ["g"]).rows
        = [[Val.str "g1", Val.str "a", Val.num 1],
           [Val.str "g2", Val.str "a", Val.num 3],
           [Val.str "g1", Val.str "b", Val.num 2],
           [Val.str "g2", Val.str "b", Val.num 4]]
      ∧ specMeltRowMajor Tmelt ["g"]
        = [[Val.str "g1", Val.str "a", Val.num 1],
           [Val.str "g1", Val.str "b", Val.num 2],
           [Val.str "g2", Val.str "a", Val.num 3],
           [Val.str "g2", Val.str "b", Val.num 4]] := by
  refine ⟨by decide, by decide, by decide⟩

/-- C5 amended: the melt emits exactly one record per (row x non-id
field), ordered column-major: the record at position
fieldIndex * rowCount + rowIndex carries the id values of row rowIndex,
the name of that field, and that row's cell in it. -/
theorem c5_melt_records (t : Table) (idVars : List String) :
    (meltTable t idVars).rows.length
        = (plotColsOf t idVars).length * t.rows.length
      ∧ ∀ j i, j < (plotColsOf t idVars).length → i < t.rows.length →
          (meltTable t idVars).rows.getD (j * t.rows.length + i) []
            = idVars.map (getCell t.header (t.rows.getD i []))
              ++ [Val.str ((plotColsOf t idVars).getD j ""),
                  getCell t.header (t.rows.getD i [])
                    ((plotColsOf t idVars).getD j "")] := by
  have hlens : ∀ v ∈ plotColsOf t idVars,
      ((fun v => t.rows.map (fun r => idVars.map (getCell t.header r)
        ++ [Val.str v, getCell t.header r v])) v).length = t.rows.length := by
    intro v _
    exact List.length_map _ _
  constructor
  · exact length_flatten_uniform _ _ _ hlens
  · intro j i hj hi
    rw [show (meltTable t idVars).rows = ((plotColsOf t idVars).map
      (fun v => t.rows.map (fun r => idVars.map (getCell t.header r)
        ++ [Val.str v, getCell t.header r v]))).flatten from rfl]
    rw [getD_flatten_uniform hlens [] hj hi]
    rw [List.getD_eq_getElem _ _ (by simpa using hi), List.getElem_map]
    simp only [List.getD_eq_getElem _ _ hi, List.getD_eq_getElem _ _ hj,
      List.get_eq_getElem]

/-- Witness: the amended melt statement evaluated on `Tmelt` at field
index 1 and row index 0. -/
theorem c5_melt_records_witness :
    (meltTable Tmelt ["g"]).rows.length
        = (plotColsOf Tmelt ["g"]).length * Tmelt.rows.length
      ∧ (meltTable Tmelt ["g"]).rows.getD (1 * Tmelt.rows.length + 0) []
        = ["g"].map (getCell Tmelt.header (Tmelt.rows.getD 0 []))
          ++ [Val.str ((plotColsOf Tmelt ["g"]).getD 1 ""),
              getCell Tmelt.header (Tmelt.rows.getD 0 [])
                ((plotColsOf Tmelt ["g"]).getD 1 "")] :=
  ⟨(c5_melt_records Tmelt ["g"]).1,
    (c5_melt_records Tmelt ["g"]).2 1 0 (by decide) (by decide)⟩

/-- C6 fails on the code: with two id fields (a, b) the melted records
have two distinct complete rowKeys, yet the single-series data holds a
single value, because the code groups by the first rowField only. -/
theorem c6_single_series_counterexample :
    (simpleBarData Tkeys ["a", "b"]).length = 1
      ∧ (specGroupByRowKey (meltTable Tkeys ["a", "b"]) ["a", "b"] "Val").length = 2
      ∧ (simpleBarData Tkeys ["a", "b"]).map Prod.fst = [Val.str "x"]
      ∧ firstDedup ((meltTable Tkeys ["a", "b"]).rows.map (fun r =>
          (["a", "b"] : List String).map
            (getCell (meltTable Tkeys ["a", "b"]).header r)))
        = [[Val.str "x", Val.str "y"], [Val.str "x", Val.str "z"]] := by
  refine ⟨by decide, by decide, by decide, by decide⟩

/-- C6 amended: the single-series bar/pie/donut data groups the long-form
records by the first rowField only (main_x = row_cols[0]), producing one
summed value per distinct non-missing value of that field, not one per
distinct complete rowKey. -/
theorem c6_first_field_grouping (m : Table) (keyCol valCol : String) :
    (groupSumBy m keyCol valCol).length
        = ((m.rows.map (fun r => getCell m.header r keyCol)).filter
            (fun v => decide (v ≠ Val.null))).toFinset.card
      ∧ (∀ k ∈ (m.rows.map (fun r => getCell m.header r keyCol)).filter
            (fun v => decide (v ≠ Val.null)),
          (k, ((m.rows.filter (fun r =>
              decide (getCell m.header r keyCol = k))).map
            (fun r => toNum (getCell m.header r valCol))).sum)
            ∈ groupSumBy m keyCol valCol)
      ∧ ∀ (t : Table) (f0 : String) (rest : List String),
          simpleBarData t (f0 :: rest)
            = groupSumBy (meltTable t (f0 :: rest)) f0 "Val" := by
  refine ⟨?_, ?_, ?_⟩
  · show ((List.insertionSort valLe (firstDedup _)).map _).length = _
    rw [List.length_map, List.length_insertionSort, length_firstDedup]
  · intro k hk
    have hk2 : k ∈ List.insertionSort valLe (firstDedup
        ((m.rows.map (fun r => getCell m.header r keyCol)).filter
          (fun v => decide (v ≠ Val.null)))) := by
      rw [List.mem_insertionSort]
      exact mem_firstDedup.mpr hk
    exact List.mem_map_of_mem _ hk2
  · intro t f0 rest
    rfl

/-- Witness: the amended grouping statement evaluated on the melt of
`Tkeys`, grouped by its first id field "a". -/
theorem c6_first_field_grouping_witness :
    (Val.str "x", (((meltTable Tkeys ["a", "b"]).rows.filter (fun r =>
        decide (getCell (meltTable Tkeys ["a", "b"]).header r "a"
          = Val.str "x"))).map
      (fun r => toNum (getCell (meltTable Tkeys ["a", "b"]).header r "Val"))).sum)
      ∈ simpleBarData Tkeys ["a", "b"] := by
  rw [(c6_first_field_grouping (meltTable Tkeys ["a", "b"]) "a" "Val").2.2
    Tkeys "a" ["b"]]
  exact (c6_first_field_grouping (meltTable Tkeys ["a", "b"]) "a" "Val").2.1
    (Val.str "x") (by decide)

/-! ### Lemmas about empty inputs -/

theorem colIdx_eq_none_of_not_mem {h : List String} {c : String}
    (hc : c ∉ h) : colIdx h c = none := by
  induction h with
  | nil => rfl
  | cons a as ih =>
    have hac : ¬ a = c := fun heq => hc (heq ▸ List.mem_cons_self a as)
    rw [colIdx, if_neg hac,
      ih (fun hmem => hc (List.mem_cons_of_mem a hmem))]
    rfl

theorem toNum_getD_zero {l : List Val} (hl : ∀ x ∈ l, toNum x = 0)
    (i : Nat) : toNum (l.getD i Val.null) = 0 := by
  by_cases hi : i < l.length
  · rw [List.getD_eq_getElem _ _ hi]
    exact hl _ (List.getElem_mem hi)
  · rw [List.getD_eq_default _ _ (Nat.le_of_not_lt hi)]
    rfl

theorem augment_empty_rows (u : Table) (hu : u.rows = []) :
    (augment u).rows.length = 1
      ∧ ∀ cell ∈ (augment u).rows.getD 0 [],
          cell = Val.str "" ∨ cell = Val.str "Grand Total" ∨ cell = Val.num 0 := by
  have ht1 : (insertSNo u).rows = [] := by
    show u.rows.enum.map _ = []
    rw [hu]
    rfl
  have hcolSum : ∀ c, colSum (insertSNo u) c = 0 := by
    intro c
    rw [colSum, ht1]
    rfl
  have hgcells : ∀ cell ∈ gtRowOf (insertSNo u) (numericCols (insertSNo u)),
      cell = Val.str "" ∨ cell = Val.str "Grand Total" ∨ cell = Val.num 0 := by
    intro cell hcell
    obtain ⟨n, _, hn⟩ := List.mem_map.mp hcell
    by_cases h1 : n = "S.No"
    · rw [if_pos h1] at hn
      exact Or.inl hn.symm
    · rw [if_neg h1] at hn
      by_cases h2 : n ∈ numericCols (insertSNo u)
      · rw [if_pos h2] at hn
        refine Or.inr (Or.inr ?_)
        rw [← hn, hcolSum]
      · rw [if_neg h2] at hn
        exact Or.inr (Or.inl hn.symm)
  have htoNum : ∀ cell : Val,
      (cell = Val.str "" ∨ cell = Val.str "Grand Total" ∨ cell = Val.num 0) →
      toNum cell = 0 := by
    rintro cell (rfl | rfl | rfl) <;> rfl
  have hgetzero : ∀ c, toNum (getCell (insertSNo u).header
      (gtRowOf (insertSNo u) (numericCols (insertSNo u))) c) = 0 := by
    intro c
    rw [getCell]
    cases hidx : colIdx (insertSNo u).header c with
    | none => rfl
    | some i =>
      exact toNum_getD_zero (fun x hx => htoNum x (hgcells x hx)) i
  have hS : (((numericCols (insertSNo u)).map (fun c =>
      toNum (getCell (insertSNo u).header
        (gtRowOf (insertSNo u) (numericCols (insertSNo u))) c))).sum) = 0 := by
    rw [List.map_congr_left (fun c _ => hgetzero c), sum_map_zero]
  have haug : (augment u).rows
      = [gtRowOf (insertSNo u) (numericCols (insertSNo u))
          ++ [Val.num (((numericCols (insertSNo u)).map (fun c =>
              toNum (getCell (insertSNo u).header
                (gtRowOf (insertSNo u) (numericCols (insertSNo u))) c))).sum)]] := by
    show (((insertSNo u).rows ++ [gtRowOf (insertSNo u)
      (numericCols (insertSNo u))]).map _) = _
    rw [ht1]
    rfl
  constructor
  · rw [haug]
    rfl
  · intro cell hcell
    rw [haug] at hcell
    have hcell2 : cell ∈ gtRowOf (insertSNo u) (numericCols (insertSNo u))
        ++ [Val.num (((numericCols (insertSNo u)).map (fun c =>
            toNum (getCell (insertSNo u).header
              (gtRowOf (insertSNo u) (numericCols (insertSNo u))) c))).sum)] := hcell
    cases List.mem_append.mp hcell2 with
    | inl hmem => exact hgcells cell hmem
    | inr hmem =>
      refine Or.inr (Or.inr ?_)
      rw [List.mem_singleton.mp hmem, hS]

/-- C7: a filter spec retaining zero rows propagates cleanly: the pivot
returns a table with zero data rows, and the data-explorer augmentation
then yields exactly one row, the grand-total row, whose cells are only the
blank row-number, the "Grand Total" label, and numeric sums equal to 0. -/
theorem c7_empty_filter_propagates (t : Table) (fs : List (String × List Val))
    (rowFs colFs valFs : List String) (agg : Agg)
    (h : (applyFilters t fs).rows = []) :
    (pivot_df (applyFilters t fs) rowFs colFs valFs agg).rows = []
      ∧ (tabData (pivot_df (applyFilters t fs) rowFs colFs valFs agg)).rows.length = 1
      ∧ ∀ cell ∈ (tabData (pivot_df (applyFilters t fs)
            rowFs colFs valFs agg)).rows.getD 0 [],
          cell = Val.str "" ∨ cell = Val.str "Grand Total" ∨ cell = Val.num 0 := by
  have hvr : validRows (applyFilters t fs) rowFs colFs = [] := by
    rw [validRows, h]
    rfl
  have hkeys : pivotKeys (applyFilters t fs) rowFs colFs = [] := by
    rw [pivotKeys, hvr]
    rfl
  have h1 : (pivot_df (applyFilters t fs) rowFs colFs valFs agg).rows = [] := by
    show (pivotKeys (applyFilters t fs) rowFs colFs).map _ = []
    rw [hkeys]
    rfl
  have h2 : (cleanTable (pivot_df (applyFilters t fs) rowFs colFs valFs agg)).rows
      = [] := h1
  obtain ⟨ha, hb⟩ := augment_empty_rows
    (cleanTable (pivot_df (applyFilters t fs) rowFs colFs valFs agg)) h2
  exact ⟨h1, ha, hb⟩

/-- Witness: the empty-input statement evaluated on `Tgt` filtered by a
region value that matches no row. -/
theorem c7_empty_filter_propagates_witness :
    (pivot_df (applyFilters Tgt [("region", [Val.str "Z"])])
        ["region"] [] ["sales"] Agg.sum).rows = []
      ∧ (tabData (pivot_df (applyFilters Tgt [("region", [Val.str "Z"])])
          ["region"] [] ["sales"] Agg.sum)).rows.length = 1
      ∧ ∀ cell ∈ (tabData (pivot_df (applyFilters Tgt [("region", [Val.str "Z"])])
            ["region"] [] ["sales"] Agg.sum)).rows.getD 0 [],
          cell = Val.str "" ∨ cell = Val.str "Grand Total" ∨ cell = Val.num 0 :=
  c7_empty_filter_propagates Tgt [("region", [Val.str "Z"])]
    ["region"] [] ["sales"] Agg.sum (by decide)

/-- C8: the pasted-data loader first parses tab-delimited; when that parse
yields exactly one column it re-parses comma-delimited; it produces no
table exactly when the tab parse fails, or the tab parse yields one column
and the comma parse fails; any produced table is the (deduplicated) result
of the attempt the control flow selects. -/
theorem c8_pasted_load_fallback (text : String) :
    (loadPasted text = none ↔
        parseDelim '\t' text = none
          ∨ ∃ u, parseDelim '\t' text = some u ∧ u.header.length = 1
              ∧ parseDelim ',' text = none)
      ∧ (∀ t, loadPasted text = some t →
          (∃ u, parseDelim '\t' text = some u ∧ u.header.length ≠ 1
              ∧ t = dropDuplicates u)
            ∨ (∃ u v, parseDelim '\t' text = some u ∧ u.header.length = 1
                ∧ parseDelim ',' text = some v ∧ t = dropDuplicates v)) := by
  cases htab : parseDelim '\t' text with
  | none =>
    have hl : loadPasted text = none := by
      unfold loadPasted
      rw [htab]
    refine ⟨⟨fun _ => Or.inl rfl, fun _ => hl⟩, ?_⟩
    intro t ht
    rw [hl] at ht
    cases ht
  | some u1 =>
    by_cases hone : u1.header.length = 1
    · cases hcomma : parseDelim ',' text with
      | none =>
        have hl : loadPasted text = none := by
          unfold loadPasted
          rw [htab]
          dsimp only
          rw [if_pos hone, hcomma]
          rfl
        refine ⟨⟨fun _ => Or.inr ⟨u1, rfl, hone, rfl⟩, fun _ => hl⟩, ?_⟩
        intro t ht
        rw [hl] at ht
        cases ht
      | some v =>
        have hl : loadPasted text = some (dropDuplicates v) := by
          unfold loadPasted
          rw [htab]
          dsimp only
          rw [if_pos hone, hcomma]
          rfl
        refine ⟨⟨?_, ?_⟩, ?_⟩
        · intro hcontra
          rw [hl] at hcontra
          cases hcontra
        · rintro (h1 | ⟨u, _, _, hc⟩)
          · cases h1
          · cases hc
        · intro t ht
          rw [hl] at ht
          refine Or.inr ⟨u1, v, rfl, hone, rfl, ?_⟩
          injection ht with h2
          exact h2.symm
    · have hl : loadPasted text = some (dropDuplicates u1) := by
        unfold loadPasted
        rw [htab]
        dsimp only
        rw [if_neg hone]
      refine ⟨⟨?_, ?_⟩, ?_⟩
      · intro hcontra
        rw [hl] at hcontra
        cases hcontra
      · rintro (h1 | ⟨u, hu, h1, _⟩)
        · cases h1
        · injection hu with hu2
          exact absurd (hu2 ▸ h1) hone
      · intro t ht
        rw [hl] at ht
        refine Or.inl ⟨u1, rfl, hone, ?_⟩
        injection ht with h2
        exact h2.symm

/-- Witness: the load characterization evaluated on the pasted text
"a\tb\n1\t2", which the tab attempt parses into two columns. -/
theorem c8_pasted_load_fallback_witness :
    (∃ u, parseDelim '\t' "a\tb\n1\t2" = some u ∧ u.header.length ≠ 1
        ∧ Tc8 = dropDuplicates u)
      ∨ (∃ u v, parseDelim '\t' "a\tb\n1\t2" = some u ∧ u.header.length = 1
          ∧ parseDelim ',' "a\tb\n1\t2" = some v ∧ Tc8 = dropDuplicates v) :=
  (c8_pasted_load_fallback "a\tb\n1\t2").2 Tc8 (by decide)

/-- C9: the display path renames every flat pivot column to the part after
its last underscore; consequently a valueField name containing an
underscore is mangled ("my_val" becomes "val"), and two valueFields
crossed with the same colField value collapse to the same displayed name
("v1_x" and "v2_x" both become "x"), losing the valueField names and
uniqueness. -/
theorem c9_underscore_cleaning :
    (∀ t : Table, (cleanTable t).header = t.header.map cleanName)
      ∧ cleanName "v1_x" = "x"
      ∧ cleanName "my_val" = "val"
      ∧ cleanName "plain" = "plain"
      ∧ (cleanTable (pivot_df Tclean ["r"] ["c"] ["v1", "v2"] Agg.sum)).header
          = ["r", "x", "x"]
      ∧ ¬ (cleanTable (pivot_df Tclean ["r"] ["c"] ["v1", "v2"] Agg.sum)).header.Nodup
      ∧ "v1" ∉ (cleanTable (pivot_df Tclean ["r"] ["c"] ["v1", "v2"] Agg.sum)).header
      ∧ (cleanTable (pivot_df Tunder ["r"] [] ["my_val"] Agg.sum)).header
          = ["r", "val"]
      ∧ "my_val" ∉ (cleanTable (pivot_df Tunder ["r"] [] ["my_val"] Agg.sum)).header := by
  refine ⟨fun t => rfl, by decide, by decide, by decide, by decide, by decide,
    by decide, by decide, by decide⟩

/-! ### Lemmas about the filter engine -/

theorem filterStep_header (t : Table) (c : String) (sel : List Val) :
    (filterStep t c sel).header = t.header := by
  by_cases hsel : sel.isEmpty <;> simp [filterStep, hsel]

theorem mem_applyFilters_rows {t : Table} {fs : List (String × List Val)}
    {r : List Val} (hr : r ∈ (applyFilters t fs).rows) :
    r ∈ t.rows ∧ ∀ p ∈ fs, p.2 ≠ [] →
      p.2.contains (getCell t.header r p.1) = true := by
  induction fs generalizing t with
  | nil => exact ⟨hr, by simp⟩
  | cons p ps ih =>
    have hr2 : r ∈ (applyFilters (filterStep t p.1 p.2) ps).rows := hr
    obtain ⟨hrstep, hrest⟩ := ih hr2
    simp only [filterStep_header] at hrest
    by_cases hsel : p.2.isEmpty
    · rw [filterStep, if_pos hsel] at hrstep
      refine ⟨hrstep, ?_⟩
      intro q hq hqne
      cases List.mem_cons.mp hq with
      | inl heq =>
        subst heq
        exact absurd (List.isEmpty_iff.mp hsel) hqne
      | inr hmemq => exact hrest q hmemq hqne
    · rw [filterStep, if_neg hsel] at hrstep
      have hfil := List.of_mem_filter hrstep
      refine ⟨List.mem_of_mem_filter hrstep, ?_⟩
      intro q hq hqne
      cases List.mem_cons.mp hq with
      | inl heq =>
        subst heq
        exact hfil
      | inr hmemq => exact hrest q hmemq hqne

/-- C10: when a filter column has a non-empty selection drawn from the
column's non-missing distinct values, every row whose cell in that column
is missing is excluded from the filtered table; a column with an empty
selection filters nothing. -/
theorem c10_missing_rows_excluded (t : Table) (fs : List (String × List Val))
    (c : String) (sel : List Val)
    (hmem : (c, sel) ∈ fs) (hne : sel ≠ [])
    (hsub : ∀ v ∈ sel, v ∈ dropnaUnique t c) :
    (∀ r ∈ (applyFilters t fs).rows, getCell t.header r c ≠ Val.null)
      ∧ ∀ (t2 : Table) (c2 : String), filterStep t2 c2 [] = t2 := by
  constructor
  · intro r hr
    obtain ⟨_, hall⟩ := mem_applyFilters_rows hr
    have hcontains := hall (c, sel) hmem hne
    have hvmem : getCell t.header r c ∈ sel := by
      simpa using hcontains
    have hvdrop := hsub _ hvmem
    have hvfil := mem_firstDedup.mp hvdrop
    have hvne := List.of_mem_filter hvfil
    simpa using hvne
  · intro t2 c2
    simp [filterStep]

/-- Witness: the filter statement evaluated on `Tnull`, whose middle row
has a missing region and is excluded by the (E, W) selection. -/
theorem c10_missing_rows_excluded_witness :
    (∀ r ∈ (applyFilters Tnull [("region", [Val.str "E", Val.str "W"])]).rows,
        getCell Tnull.header r "region" ≠ Val.null)
      ∧ ∀ (t2 : Table) (c2 : String), filterStep t2 c2 [] = t2 :=
  c10_missing_rows_excluded Tnull [("region", [Val.str "E", Val.str "W"])]
    "region" [Val.str "E", Val.str "W"] (by decide) (by decide) (by decide)

/-- Witness: the grand-total invariant evaluated on `Tgt`. -/
theorem c1_grand_total_invariant_witness :
    ((augment Tgt).rows.getLastD []).getLastD Val.null
        = Val.num ((Tgt.rows.map (fun r =>
            ((numNames Tgt).map (fun c => toNum (getCell Tgt.header r c))).sum)).sum)
      ∧ ∀ c ∈ numNames Tgt,
          getCell (augment Tgt).header ((augment Tgt).rows.getLastD []) c
            = Val.num ((((augment Tgt).rows.dropLast).map (fun r =>
                toNum (getCell (augment Tgt).header r c))).sum) :=
  c1_grand_total_invariant Tgt (by decide) (by decide) (by decide) (by decide)
    (by decide)

end MIS
